import Mathlib

/-!
Verification of the transitive-analysis engine (ncsoccer/analysis.py).

The engine is embedded shallowly:

* Strings are handled at the character-list level (`List Char`), mirroring
  Python's `str.lower()` and substring `in` on the ASCII team names the
  scraper produces.
* Python floats are modelled as exact rationals (every float is a rational
  number); the one transcendental operation, `math.pow(0.5, x)` inside
  `_calculate_recency_weight`, is kept abstract in the rational pipeline as
  an oracle `Env.powHalf`, and its ideal real value `(1/2) ^ x` is analysed
  separately over `ℝ`.
* The `AllGamesStore` read interface is out of scope per the spec (external
  collaborator) and is modelled as an oracle `Store`; the league filter and
  date cutoff of the analyzer's queries are absorbed into the oracle.
* `datetime.strptime(date, "%Y-%m-%d")` can raise `ValueError`; the pipeline
  is therefore `Except Unit`-valued, with `parseYMD` modelling the parse and
  `Env.daysSince` modelling `(datetime.now() - game_dt).days` on the parsed
  date.
-/

namespace NCSoccer

/-! ## String utilities (Python `str.lower` and substring `in`) -/

/-- Python's `str.lower()` on a string, at the character-list level
(the team names handled by the engine are ASCII). -/
def lowerData (s : String) : List Char :=
  s.data.map Char.toLower

/-- Is `n` a prefix of `h`?  Helper for the Python substring test. -/
def listPre : List Char → List Char → Bool
  | [], _ => true
  | _ :: _, [] => false
  | a :: as, b :: bs => a == b && listPre as bs

/-- Python's substring containment `n in h` on character lists:
true iff `n` occurs contiguously inside `h` (the empty list occurs in
everything, as in Python). -/
def listSub (n : List Char) : List Char → Bool
  | [] => listPre n []
  | b :: bs => listPre n (b :: bs) || listSub n bs

/-- Python's `needle.lower() in hay.lower()` test used throughout
`analysis.py` for team-name matching. -/
def substrLower (needle hay : String) : Bool :=
  listSub (lowerData needle) (lowerData hay)

/-! ## Data model -/

/-- One stored game row, as the `metadata` dict consumed by the analyzer:
`date` (ISO `YYYY-MM-DD` string), `home_team`, `away_team`, the two scores
and the `is_played` flag.  Per the store interface, a score is meaningful
only when `is_played` is true (a null score implies unplayed). -/
structure Game where
  date : String
  home_team : String
  away_team : String
  home_score : Int
  away_score : Int
  is_played : Bool
deriving DecidableEq

/-- The read interface of `AllGamesStore` consumed by the analyzer (an
external collaborator): the set of opponents a team has faced, and the
head-to-head games between two teams.  League filter and date cutoff are
absorbed into the oracle state. -/
structure Store where
  opponentsFor : String → List String
  headToHead : String → String → List Game

/-- Structure TeamRecord: a team's aggregate against one specific opponent. -/
structure TeamRecord where
  wins : Nat
  losses : Nat
  ties : Nat
  goals_for : Int
  goals_against : Int
  games : List Game
deriving DecidableEq

/-- Derived property games_played = wins + losses + ties. -/
def TeamRecord.games_played (r : TeamRecord) : Nat :=
  r.wins + r.losses + r.ties

/-- Derived property goal_diff = goals_for - goals_against. -/
def TeamRecord.goal_diff (r : TeamRecord) : Int :=
  r.goals_for - r.goals_against

/-- The empty record `TeamRecord()` (all dataclass defaults). -/
def TeamRecord.empty : TeamRecord :=
  ⟨0, 0, 0, 0, 0, []⟩

/-- The score attributed to `team` in a game: the home score when the
lowered team name occurs in the lowered stored `home_team` field, the away
score otherwise (`_build_team_record`'s `is_home` branch). -/
def ourScoreOf (teamLower : List Char) (g : Game) : Int :=
  if listSub teamLower (lowerData g.home_team) then g.home_score else g.away_score

/-- The score attributed to the other side of a game, dual to `ourScoreOf`. -/
def theirScoreOf (teamLower : List Char) (g : Game) : Int :=
  if listSub teamLower (lowerData g.home_team) then g.away_score else g.home_score

/-- Loop body of `_build_team_record`: skip unplayed games; otherwise append
the game, attribute goals by the home/away substring match, and increment
exactly one of wins/losses/ties by strict score comparison. -/
def recordStep (teamLower : List Char) (r : TeamRecord) (g : Game) : TeamRecord :=
  if !g.is_played then r
  else
    let ourScore := ourScoreOf teamLower g
    let theirScore := theirScoreOf teamLower g
    let r1 : TeamRecord :=
      { r with
        games := r.games ++ [g]
        goals_for := r.goals_for + ourScore
        goals_against := r.goals_against + theirScore }
    if theirScore < ourScore then { r1 with wins := r1.wins + 1 }
    else if ourScore < theirScore then { r1 with losses := r1.losses + 1 }
    else { r1 with ties := r1.ties + 1 }

/-- The function _build_team_record(team_name, opponent) applied to the games the store
returned for the pair: fold the loop body over the rows. -/
def buildTeamRecord (teamName : String) (h2hGames : List Game) : TeamRecord :=
  h2hGames.foldl (recordStep (lowerData teamName)) TeamRecord.empty

/-- Structure HeadToHeadRecord: direct record between our team and the opponent
(same shape as `TeamRecord`; kept separate as in the source). -/
structure HeadToHeadRecord where
  games : List Game
  wins : Nat
  losses : Nat
  ties : Nat
  goals_for : Int
  goals_against : Int
deriving DecidableEq

/-- Derived property games_played of the head-to-head record. -/
def HeadToHeadRecord.games_played (r : HeadToHeadRecord) : Nat :=
  r.wins + r.losses + r.ties

/-- Loop body of `get_head_to_head_record` (identical aggregation logic to
`_build_team_record`, from our team's perspective). -/
def h2hStep (ourLower : List Char) (r : HeadToHeadRecord) (g : Game) : HeadToHeadRecord :=
  if !g.is_played then r
  else
    let ourScore := ourScoreOf ourLower g
    let theirScore := theirScoreOf ourLower g
    let r1 : HeadToHeadRecord :=
      { r with
        games := r.games ++ [g]
        goals_for := r.goals_for + ourScore
        goals_against := r.goals_against + theirScore }
    if theirScore < ourScore then { r1 with wins := r1.wins + 1 }
    else if ourScore < theirScore then { r1 with losses := r1.losses + 1 }
    else { r1 with ties := r1.ties + 1 }

/-- The function get_head_to_head_record(opponent) applied to the store's rows for
(our_team, opponent). -/
def buildHeadToHead (ourTeam : String) (h2hGames : List Game) : HeadToHeadRecord :=
  h2hGames.foldl (h2hStep (lowerData ourTeam)) ⟨[], 0, 0, 0, 0, 0⟩

/-! ## SharedOpponentComparison and its advantage score -/

/-- Structure SharedOpponentComparison: both teams' records against one shared
opponent plus the recency weight (a float, hence a rational). -/
structure SharedOpponentComparison where
  opponent : String
  our_record : TeamRecord
  their_record : TeamRecord
  recency_weight : ℚ
deriving DecidableEq

/-- The advantage_score property of `SharedOpponentComparison`:
0 when either side has no games; otherwise the clamped combination of the
win-rate difference (half weight), the clamped per-game goal-differential
difference (half weight), and the recency weight. -/
def SharedOpponentComparison.advantage_score (c : SharedOpponentComparison) : ℚ :=
  let ourGames := c.our_record.games_played
  let theirGames := c.their_record.games_played
  if ourGames = 0 ∨ theirGames = 0 then 0
  else
    let ourWinRate := ((c.our_record.wins : ℚ) + (1/2) * (c.our_record.ties : ℚ)) / (ourGames : ℚ)
    let theirWinRate := ((c.their_record.wins : ℚ) + (1/2) * (c.their_record.ties : ℚ)) / (theirGames : ℚ)
    let winDiff := (ourWinRate - theirWinRate) * (1/2)
    let ourGdPerGame := (c.our_record.goal_diff : ℚ) / (ourGames : ℚ)
    let theirGdPerGame := (c.their_record.goal_diff : ℚ) / (theirGames : ℚ)
    let gdDiff := max (-(1/2)) (min (1/2) ((ourGdPerGame - theirGdPerGame) / 5))
    let rawScore := (winDiff + gdDiff) * c.recency_weight
    max (-1) (min 1 rawScore)

/-! ## Recency weight: ideal real semantics of `_calculate_recency_weight` -/

/-- Boolean form of the ambient string order (via the character lists, so
that it evaluates). -/
def strLeB (a b : String) : Bool :=
  !(decide (List.Lex (· < ·) b.data a.data))

/-- The larger of two strings in the ambient (lexicographic) order, through
the evaluating comparison; equal to `max a b`. -/
def pyMax (a b : String) : String :=
  if strLeB a b then b else a

/-- Python's `max(dates)` over a list of date strings (lexicographic, which
on ISO `YYYY-MM-DD` dates is chronological).  Folded from the empty string,
which is a bottom element, so on a non-empty list this is the maximum. -/
def maxDate (dates : List String) : String :=
  dates.foldl pyMax ""

/-- Real-number semantics of `_calculate_recency_weight`:
`math.pow(0.5, days_ago / recency_half_life_days)`. -/
noncomputable def calculateRecencyWeight (halfLifeDays : ℕ) (daysAgo : ℤ) : ℝ :=
  (1/2 : ℝ) ^ ((daysAgo : ℝ) / (halfLifeDays : ℝ))

/-- Real-number semantics of the recency weight `get_comparative_performance`
attaches to a comparison: `0.5` when neither record has contributing games,
otherwise the decayed weight at the most recent game date across the union
of both records' games.  `daysSince d` models `(datetime.now() -
strptime(d)).days`. -/
noncomputable def comparisonRecencyWeight (halfLifeDays : ℕ) (daysSince : String → ℤ)
    (ourRecord theirRecord : TeamRecord) : ℝ :=
  let allGames := ourRecord.games ++ theirRecord.games
  if allGames = [] then 1/2
  else calculateRecencyWeight halfLifeDays (daysSince (maxDate (allGames.map Game.date)))

/-! ## Date parsing (model of `datetime.strptime(s, "%Y-%m-%d")`) -/

/-- Split a character list on `'-'`, like Python's `"s".split("-")`. -/
def splitDash : List Char → List (List Char)
  | [] => [[]]
  | c :: cs =>
    if c = '-' then [] :: splitDash cs
    else
      match splitDash cs with
      | [] => [[c]]
      | p :: ps => (c :: p) :: ps

/-- Numeric value of a digit string. -/
def digitsVal (cs : List Char) : ℕ :=
  cs.foldl (fun n c => n * 10 + (c.toNat - 48)) 0

/-- Day count of a month, Gregorian leap rule (as `datetime` validates). -/
def monthLen (y m : ℕ) : ℕ :=
  if m = 2 then
    (if y % 4 = 0 ∧ (y % 100 ≠ 0 ∨ y % 400 = 0) then 29 else 28)
  else if m = 4 ∨ m = 6 ∨ m = 9 ∨ m = 11 then 30
  else 31

/-- Models `datetime.strptime(s, "%Y-%m-%d")`: exactly three dash-separated
fields, a four-digit year, a one- or two-digit month in 1..12 and a one- or
two-digit day valid for that month; any other shape raises `ValueError`
(modelled as `none`). -/
def parseYMD (s : String) : Option (ℕ × ℕ × ℕ) :=
  match splitDash s.data with
  | [yc, mc, dc] =>
    if (yc.length = 4 ∧ yc.all Char.isDigit)
        ∧ ((mc.length = 1 ∨ mc.length = 2) ∧ mc.all Char.isDigit)
        ∧ ((dc.length = 1 ∨ dc.length = 2) ∧ dc.all Char.isDigit) then
      let y := digitsVal yc
      let m := digitsVal mc
      let d := digitsVal dc
      if (1 ≤ m ∧ m ≤ 12) ∧ (1 ≤ d ∧ d ≤ monthLen y m) then some (y, m, d) else none
    else none
  | _ => none

/-! ## The rational pipeline -/

/-- Environment of the rational pipeline.  `powHalf x` is the float
`math.pow(0.5, x)` returns (a float is a rational; its ideal real value is
analysed by `calculateRecencyWeight`); `daysSince ymd` is
`(datetime.now() - game_dt).days` for the parsed date. -/
structure Env where
  powHalf : ℚ → ℚ
  daysSince : ℕ × ℕ × ℕ → ℤ

/-- The function _calculate_recency_weight(game_date) in the rational pipeline:
`strptime` may raise (`none` date ⇒ error); dividing by a zero half-life
raises `ZeroDivisionError` (modelled as error); otherwise the float
`math.pow(0.5, days_ago / half_life)`. -/
def calcRecencyWeightE (env : Env) (halfLifeDays : ℕ) (gameDate : String) : Except Unit ℚ :=
  match parseYMD gameDate with
  | none => .error ()
  | some ymd =>
    if halfLifeDays = 0 then .error ()
    else .ok (env.powHalf ((env.daysSince ymd : ℚ) / (halfLifeDays : ℚ)))

/-- The function get_comparative_performance(shared_opponent, opponent): build both
records, then attach the recency weight of the most recent contributing
game (default `0.5` when there are no games).  A date-parse failure
propagates as an error. -/
def getComparativePerformance (env : Env) (halfLifeDays : ℕ)
    (ourTeam opponent sharedOpp : String) (store : Store) :
    Except Unit SharedOpponentComparison :=
  let ourRecord := buildTeamRecord ourTeam (store.headToHead ourTeam sharedOpp)
  let theirRecord := buildTeamRecord opponent (store.headToHead opponent sharedOpp)
  let allGames := ourRecord.games ++ theirRecord.games
  match allGames with
  | [] => .ok ⟨sharedOpp, ourRecord, theirRecord, 1/2⟩
  | g :: gs =>
    match calcRecencyWeightE env halfLifeDays (maxDate ((g :: gs).map Game.date)) with
    | .error () => .error ()
    | .ok w => .ok ⟨sharedOpp, ourRecord, theirRecord, w⟩

/-! ## Shared-opponent discovery -/

/-- A `Decidable` instance for the ambient string order that reduces. -/
def strLeDec (a b : String) : Decidable (a ≤ b) :=
  decidable_of_iff (strLeB a b = true)
    (by
      rw [strLeB, Bool.not_eq_true', decide_eq_false_iff_not]
      exact (not_congr String.lt_iff_toList_lt).symm)

/-- Python's `sorted` on a list of strings (insertion sort; the inputs it is
applied to are duplicate-free, so any correct sort yields the same list). -/
def sortStrings (l : List String) : List String :=
  @List.insertionSort String (· ≤ ·) (fun a b => strLeDec a b) l

/-- The function find_shared_opponents(opponent): intersect the two opponent sets,
drop any name that case-insensitively contains either team's name, and
return the survivors sorted. -/
def findSharedOpponents (ourTeam opponent : String) (store : Store) : List String :=
  let ourOpponents := store.opponentsFor ourTeam
  let theirOpponents := store.opponentsFor opponent
  let shared := ((ourOpponents.inter theirOpponents).dedup).filter
    (fun opp => !(substrLower ourTeam opp) && !(substrLower opponent opp))
  sortStrings shared

/-! ## Python rounding -/

/-- Floor of a rational, computably (`Int.ediv` is floor division for the
positive denominator). -/
def qfloor (q : ℚ) : ℤ :=
  q.num.ediv q.den

/-- Python's `round` to an integer: round half to even (banker's rounding),
on the exact rational value. -/
def pyRound (q : ℚ) : ℤ :=
  let f := qfloor q
  let r := q - (f : ℚ)
  if r < 1/2 then f
  else if 1/2 < r then f + 1
  else if f % 2 = 0 then f else f + 1

/-- Python's `round(x, 2)` (display rounding of the advantage score). -/
def round2 (q : ℚ) : ℚ :=
  (pyRound (q * 100) : ℚ) / 100

/-- Python's `round(x, 0)` (display rounding of the confidence). -/
def round0 (q : ℚ) : ℚ :=
  (pyRound q : ℚ)

/-! ## predict_outcome -/

/-- Structure PredictionResult (the `league_filter` and `time_window_days` fields
are query parameters absorbed into the store oracle). -/
structure PredictionResult where
  our_team : String
  opponent : String
  comparisons : List SharedOpponentComparison
  confidence : ℚ
  advantage_score : ℚ
  outcome : String
  head_to_head : Option HeadToHeadRecord
deriving DecidableEq

/-- The quantity min(games_played_sum, 6) / 6.0: the games weight of a comparison. -/
def gamesWeight (c : SharedOpponentComparison) : ℚ :=
  ((min (c.our_record.games_played + c.their_record.games_played) 6 : ℕ) : ℚ) / 6

/-- The product recency_weight * games_weight: the combined roll-up weight. -/
def combinedWeight (c : SharedOpponentComparison) : ℚ :=
  c.recency_weight * gamesWeight c

/-- The weighted-advantage accumulation loop of `predict_outcome`:
`total_weight` and `weighted_advantage` accumulators, then the guarded
division. -/
def rollUpAdvantage (comparisons : List SharedOpponentComparison) : ℚ :=
  let acc := comparisons.foldl
    (fun (p : ℚ × ℚ) comp =>
      (p.1 + combinedWeight comp, p.2 + comp.advantage_score * combinedWeight comp))
    (0, 0)
  if 0 < acc.1 then acc.2 / acc.1 else 0

/-- The confidence computation of `predict_outcome` (step 6): base
confidence saturating at 4 comparisons, consistency factor from the
variance of the comparison scores around the final advantage score. -/
def rollUpConfidence (comparisons : List SharedOpponentComparison) (advantageScore : ℚ) : ℚ :=
  let baseConfidence := min ((comparisons.length : ℚ) / 4) 1
  let consistencyFactor :=
    if 2 ≤ comparisons.length then
      let scores := comparisons.map SharedOpponentComparison.advantage_score
      let variance := (scores.map (fun s => (s - advantageScore) ^ 2)).sum / (scores.length : ℚ)
      max (1/2) (1 - variance)
    else (7/10 : ℚ)
  baseConfidence * consistencyFactor * 100

/-- Python's `abs` on a rational. -/
def pyAbs (q : ℚ) : ℚ :=
  if q < 0 then -q else q

/-- The tail of `predict_outcome` once the qualifying comparisons and the
head-to-head record are in hand: the empty-comparison early return, or the
weighted roll-up, confidence, outcome classification, minimum-evidence
guard and display rounding. -/
def predictFromComparisons (minSharedOpponents : ℕ) (ourTeam opponent : String)
    (h2h : HeadToHeadRecord) (comparisons : List SharedOpponentComparison) :
    PredictionResult :=
  match comparisons with
  | [] =>
    ⟨ourTeam, opponent, [], 0, 0, "UNCERTAIN",
      if 0 < h2h.games_played then some h2h else none⟩
  | c :: cs =>
    let comps := c :: cs
    let advantageScore := rollUpAdvantage comps
    let confidence := rollUpConfidence comps advantageScore
    let outcome :=
      if pyAbs advantageScore < 3/20 then "UNCERTAIN"
      else if 0 < advantageScore then "FAVORABLE"
      else "UNFAVORABLE"
    let confidence2 :=
      if comps.length < minSharedOpponents then min confidence 30 else confidence
    let outcome2 :=
      if comps.length < minSharedOpponents then
        (if outcome ≠ "UNCERTAIN" then "UNCERTAIN" else outcome)
      else outcome
    ⟨ourTeam, opponent, comps, round0 confidence2, round2 advantageScore, outcome2,
      if 0 < h2h.games_played then some h2h else none⟩

/-- The comparison-building loop of `predict_outcome`: one comparison per
shared opponent in sorted order (the first date-parse error aborts, as the
exception would), keeping those where both sides have played. -/
def qualifyingComparisons (env : Env) (halfLifeDays : ℕ) (ourTeam opponent : String)
    (store : Store) : Except Unit (List SharedOpponentComparison) := do
  let comps ← (findSharedOpponents ourTeam opponent store).mapM
    (fun sharedOpp => getComparativePerformance env halfLifeDays ourTeam opponent sharedOpp store)
  .ok (comps.filter (fun c =>
    decide (0 < c.our_record.games_played) && decide (0 < c.their_record.games_played)))

/-- The function predict_outcome(opponent): discover shared opponents, build the
qualifying comparisons, resolve the direct head-to-head record, and roll
up. -/
def predictOutcome (env : Env) (halfLifeDays minSharedOpponents : ℕ) (ourTeam : String)
    (store : Store) (opponent : String) : Except Unit PredictionResult := do
  let comparisons ← qualifyingComparisons env halfLifeDays ourTeam opponent store
  let h2h := buildHeadToHead ourTeam (store.headToHead ourTeam opponent)
  .ok (predictFromComparisons minSharedOpponents ourTeam opponent h2h comparisons)

/-! ## Concrete fixtures (used by witnesses) -/

/-- A played game: kw 3 - 0 ral. -/
def wG1 : Game := ⟨"2026-01-05", "kw", "ral", 3, 0, true⟩

/-- A played game: ral 1 - 1 ec. -/
def wG2 : Game := ⟨"2026-01-06", "ral", "ec", 1, 1, true⟩

/-- A played direct game: kw 2 - 1 ec. -/
def wGd : Game := ⟨"2026-02-01", "kw", "ec", 2, 1, true⟩

/-- A played game with an unparsable date. -/
def wGBad : Game := ⟨"garbage", "kw", "ral", 3, 0, true⟩

/-- An environment whose `math.pow(0.5, ·)` oracle returns 1 and whose
`daysSince` is 0 (most recent game today). -/
def wEnv : Env := ⟨fun _ => 1, fun _ => 0⟩

/-- A store where kw and ec share the opponent ral (one game each) and have
one direct game. -/
def wStore1 : Store :=
  ⟨fun t => if t = "kw" then ["ral", "ec"] else if t = "ec" then ["ral", "kw"] else [],
   fun t o =>
     if t = "kw" ∧ o = "ral" then [wG1]
     else if t = "ec" ∧ o = "ral" then [wG2]
     else if t = "kw" ∧ o = "ec" then [wGd]
     else []⟩

/-- A store with no shared opponents but one direct kw-ec game. -/
def wStore0 : Store :=
  ⟨fun _ => [], fun t o => if t = "kw" ∧ o = "ec" then [wGd] else []⟩

/-- The empty store. -/
def wStoreE : Store :=
  ⟨fun _ => [], fun _ _ => []⟩

/-- A store whose only contributing game for the shared opponent ral has an
unparsable date. -/
def wStoreBad : Store :=
  ⟨fun t => if t = "kw" ∨ t = "ec" then ["ral"] else [],
   fun t o => if t = "kw" ∧ o = "ral" then [wGBad] else []⟩

/-- The comparison `wStore1` produces for the shared opponent ral under
`wEnv`. -/
def wComp : SharedOpponentComparison :=
  ⟨"ral", ⟨1, 0, 0, 3, 0, [wG1]⟩, ⟨0, 0, 1, 1, 1, [wG2]⟩, 1⟩

/-- The one-game team record of kw against ral. -/
def wRec1 : TeamRecord := ⟨1, 0, 0, 3, 0, [wG1]⟩

/-! ## Helper lemmas: strings -/

lemma listPre_self (n : List Char) : listPre n n = true := by
  induction n with
  | nil => rfl
  | cons a as ih => simp [listPre, ih]

lemma listSub_self (n : List Char) : listSub n n = true := by
  cases n with
  | nil => rfl
  | cons a as => simp [listSub, listPre_self]

lemma substrLower_self (s : String) : substrLower s s = true :=
  listSub_self (lowerData s)

lemma strLeB_iff (a b : String) : strLeB a b = true ↔ a ≤ b := by
  rw [strLeB, Bool.not_eq_true', decide_eq_false_iff_not]
  exact (not_congr String.lt_iff_toList_lt).symm

lemma pyMax_eq_max (a b : String) : pyMax a b = max a b := by
  by_cases h : a ≤ b
  · rw [pyMax, if_pos ((strLeB_iff a b).mpr h), max_eq_right h]
  · rw [pyMax, if_neg (fun hc => h ((strLeB_iff a b).mp hc)),
      max_eq_left (le_of_not_le h)]

lemma le_foldl_pyMax (l : List String) (acc : String) :
    (∀ d ∈ l, d ≤ l.foldl pyMax acc) ∧ acc ≤ l.foldl pyMax acc := by
  induction l generalizing acc with
  | nil => exact ⟨fun d hd => absurd hd (List.not_mem_nil d), le_refl acc⟩
  | cons a l ih =>
    have hstep : List.foldl pyMax acc (a :: l) = List.foldl pyMax (pyMax acc a) l := rfl
    have hbase := (ih (pyMax acc a)).2
    have hmax : a ≤ pyMax acc a := by rw [pyMax_eq_max]; exact le_max_right acc a
    have hacc : acc ≤ pyMax acc a := by rw [pyMax_eq_max]; exact le_max_left acc a
    refine ⟨fun d hd => ?_, ?_⟩
    · rcases List.mem_cons.mp hd with h | h
      · subst h
        rw [hstep]
        exact le_trans hmax hbase
      · rw [hstep]
        exact (ih (pyMax acc a)).1 d h
    · rw [hstep]
      exact le_trans hacc hbase

lemma le_maxDate (dates : List String) : ∀ d ∈ dates, d ≤ maxDate dates :=
  (le_foldl_pyMax dates "").1

/-! ## Helper lemmas: rounding -/

lemma qfloor_eq_floor (q : ℚ) : qfloor q = ⌊q⌋ := by
  rw [Rat.floor_def]; rfl

lemma le_pyRound (z : ℤ) (q : ℚ) (h : (z : ℚ) ≤ q) : z ≤ pyRound q := by
  have hf : z ≤ ⌊q⌋ := Int.le_floor.mpr h
  rw [pyRound, qfloor_eq_floor]
  split_ifs <;> omega

lemma pyRound_le (z : ℤ) (q : ℚ) (h : q ≤ (z : ℚ)) : pyRound q ≤ z := by
  have hfz : ⌊q⌋ ≤ z := by
    have h1 : ⌊q⌋ ≤ ⌊(z : ℚ)⌋ := Int.floor_le_floor h
    rwa [Int.floor_intCast] at h1
  have hkey : ¬ (q - (⌊q⌋ : ℚ) < 1/2) → ⌊q⌋ < z := by
    intro hr
    rcases lt_or_eq_of_le hfz with hlt | heq
    · exact hlt
    · exfalso
      push_neg at hr
      rw [heq] at hr
      have : q ≤ (⌊q⌋ : ℚ) := by
        rw [heq]; exact h
      linarith
  rw [pyRound, qfloor_eq_floor]
  split_ifs with h1 h2 h3 <;> try exact hfz
  · exact hkey h1
  · exact hkey h1

/-! ## Helper lemmas: advantage score bounds -/

lemma advantage_score_mem (c : SharedOpponentComparison) :
    -1 ≤ c.advantage_score ∧ c.advantage_score ≤ 1 := by
  rw [SharedOpponentComparison.advantage_score]
  by_cases h : c.our_record.games_played = 0 ∨ c.their_record.games_played = 0
  · simp only [if_pos h]
    norm_num
  · simp only [if_neg h]
    exact ⟨le_max_left _ _, max_le (by norm_num) (min_le_left _ _)⟩

/-! ## Helper lemmas: the weighted roll-up -/

lemma rollUp_foldl_eq (comps : List SharedOpponentComparison) (a b : ℚ) :
    comps.foldl
      (fun (p : ℚ × ℚ) comp =>
        (p.1 + combinedWeight comp, p.2 + comp.advantage_score * combinedWeight comp))
      (a, b)
    = (a + (comps.map combinedWeight).sum,
       b + (comps.map fun c => c.advantage_score * combinedWeight c).sum) := by
  induction comps generalizing a b with
  | nil => simp
  | cons c cs ih =>
    simp only [List.foldl_cons, List.map_cons, List.sum_cons, ih]
    rw [Prod.mk.injEq]
    constructor <;> ring

lemma rollUpAdvantage_eq (comps : List SharedOpponentComparison) :
    rollUpAdvantage comps
      = if 0 < (comps.map combinedWeight).sum
        then (comps.map fun c => c.advantage_score * combinedWeight c).sum
            / (comps.map combinedWeight).sum
        else 0 := by
  rw [rollUpAdvantage, rollUp_foldl_eq]
  norm_num

lemma gamesWeight_nonneg (c : SharedOpponentComparison) : 0 ≤ gamesWeight c := by
  rw [gamesWeight]
  positivity

lemma combinedWeight_nonneg (c : SharedOpponentComparison)
    (h : 0 ≤ c.recency_weight) : 0 ≤ combinedWeight c :=
  mul_nonneg h (gamesWeight_nonneg c)

lemma weighted_sum_le (comps : List SharedOpponentComparison)
    (hw : ∀ c ∈ comps, 0 ≤ c.recency_weight) :
    (comps.map fun c => c.advantage_score * combinedWeight c).sum
      ≤ (comps.map combinedWeight).sum := by
  induction comps with
  | nil => simp
  | cons c cs ih =>
    simp only [List.map_cons, List.sum_cons]
    have hcw : 0 ≤ combinedWeight c :=
      combinedWeight_nonneg c (hw c (List.mem_cons_self c cs))
    have h1 : c.advantage_score * combinedWeight c ≤ combinedWeight c :=
      mul_le_of_le_one_left hcw (advantage_score_mem c).2
    exact add_le_add h1 (ih (fun x hx => hw x (List.mem_cons_of_mem c hx)))

lemma neg_weighted_sum_le (comps : List SharedOpponentComparison)
    (hw : ∀ c ∈ comps, 0 ≤ c.recency_weight) :
    -((comps.map combinedWeight).sum)
      ≤ (comps.map fun c => c.advantage_score * combinedWeight c).sum := by
  induction comps with
  | nil => simp
  | cons c cs ih =>
    simp only [List.map_cons, List.sum_cons, neg_add]
    have hcw : 0 ≤ combinedWeight c :=
      combinedWeight_nonneg c (hw c (List.mem_cons_self c cs))
    have h1 : -(combinedWeight c) ≤ c.advantage_score * combinedWeight c := by
      have := mul_le_mul_of_nonneg_right (advantage_score_mem c).1 hcw
      linarith
    exact add_le_add h1 (ih (fun x hx => hw x (List.mem_cons_of_mem c hx)))

lemma rollUpAdvantage_mem (comps : List SharedOpponentComparison)
    (hw : ∀ c ∈ comps, 0 ≤ c.recency_weight) :
    -1 ≤ rollUpAdvantage comps ∧ rollUpAdvantage comps ≤ 1 := by
  rw [rollUpAdvantage_eq]
  split_ifs with h
  · constructor
    · rw [le_div_iff₀ h]
      have := neg_weighted_sum_le comps hw
      linarith
    · rw [div_le_one h]
      exact weighted_sum_le comps hw
  · norm_num

lemma variance_nonneg (comps : List SharedOpponentComparison) (adv : ℚ) :
    0 ≤ ((comps.map SharedOpponentComparison.advantage_score).map
        (fun s => (s - adv) ^ 2)).sum / (((comps.map SharedOpponentComparison.advantage_score).length : ℚ)) := by
  apply div_nonneg
  · apply List.sum_nonneg
    intro x hx
    rcases List.mem_map.mp hx with ⟨s, _, rfl⟩
    positivity
  · positivity

lemma rollUpConfidence_mem (comps : List SharedOpponentComparison) (adv : ℚ) :
    0 ≤ rollUpConfidence comps adv ∧ rollUpConfidence comps adv ≤ 100 := by
  rw [rollUpConfidence]
  have hb0 : (0:ℚ) ≤ min ((comps.length : ℚ) / 4) 1 := le_min (by positivity) (by norm_num)
  have hb1 : min ((comps.length : ℚ) / 4) 1 ≤ 1 := min_le_right _ _
  set cf := if 2 ≤ comps.length then
      max (1/2 : ℚ) (1 - ((comps.map SharedOpponentComparison.advantage_score).map
        (fun s => (s - adv) ^ 2)).sum / (((comps.map SharedOpponentComparison.advantage_score).length : ℚ)))
    else (7/10 : ℚ) with hcf
  have hc0 : (0:ℚ) ≤ cf := by
    rw [hcf]
    split_ifs
    · exact le_trans (by norm_num) (le_max_left _ _)
    · norm_num
  have hc1 : cf ≤ 1 := by
    rw [hcf]
    split_ifs
    · refine max_le (by norm_num) ?_
      have := variance_nonneg comps adv
      linarith
    · norm_num
  constructor
  · exact mul_nonneg (mul_nonneg hb0 hc0) (by norm_num)
  · have h1 : min ((comps.length : ℚ) / 4) 1 * cf ≤ 1 := mul_le_one₀ hb1 hc0 hc1
    have h2 : min ((comps.length : ℚ) / 4) 1 * cf * 100 ≤ 1 * 100 :=
      mul_le_mul_of_nonneg_right h1 (by norm_num)
    linarith

/-! ## Helper lemmas: sorting -/

lemma sortStrings_eq (l : List String) :
    sortStrings l = List.insertionSort (· ≤ ·) l := by
  rw [sortStrings]
  congr 1

lemma sorted_sortStrings (l : List String) :
    List.Sorted (· ≤ ·) (sortStrings l) := by
  haveI : IsTotal String (· ≤ ·) := ⟨le_total⟩
  haveI : IsTrans String (· ≤ ·) := ⟨fun a b c hab hbc => le_trans hab hbc⟩
  rw [sortStrings_eq]
  exact List.sorted_insertionSort _ l

lemma mem_sortStrings {l : List String} {x : String} :
    x ∈ sortStrings l ↔ x ∈ l := by
  rw [sortStrings_eq]
  exact (List.perm_insertionSort _ l).mem_iff

lemma nodup_sortStrings {l : List String} (h : l.Nodup) :
    (sortStrings l).Nodup := by
  rw [sortStrings_eq]
  exact (List.perm_insertionSort _ l).nodup_iff.mpr h

/-! ## Helper lemmas: the record aggregation fold -/

lemma recordStep_unplayed (tl : List Char) (r : TeamRecord) (g : Game)
    (hp : g.is_played = false) : recordStep tl r g = r := by
  rw [recordStep, hp]
  rfl

lemma recordStep_win (tl : List Char) (r : TeamRecord) (g : Game)
    (hp : g.is_played = true) (hw : theirScoreOf tl g < ourScoreOf tl g) :
    recordStep tl r g =
      ⟨r.wins + 1, r.losses, r.ties, r.goals_for + ourScoreOf tl g,
       r.goals_against + theirScoreOf tl g, r.games ++ [g]⟩ := by
  rw [recordStep, hp]
  simp [hw]

lemma recordStep_loss (tl : List Char) (r : TeamRecord) (g : Game)
    (hp : g.is_played = true) (hl : ourScoreOf tl g < theirScoreOf tl g) :
    recordStep tl r g =
      ⟨r.wins, r.losses + 1, r.ties, r.goals_for + ourScoreOf tl g,
       r.goals_against + theirScoreOf tl g, r.games ++ [g]⟩ := by
  rw [recordStep, hp]
  simp [hl, not_lt_of_gt hl]

lemma recordStep_tie (tl : List Char) (r : TeamRecord) (g : Game)
    (hp : g.is_played = true) (he : ourScoreOf tl g = theirScoreOf tl g) :
    recordStep tl r g =
      ⟨r.wins, r.losses, r.ties + 1, r.goals_for + ourScoreOf tl g,
       r.goals_against + theirScoreOf tl g, r.games ++ [g]⟩ := by
  rw [recordStep, hp]
  simp [he]

lemma foldl_recordStep_eq (tl : List Char) (gs : List Game) (r : TeamRecord) :
    gs.foldl (recordStep tl) r =
      ⟨r.wins + (gs.filter (fun g => g.is_played)).countP
          (fun g => decide (theirScoreOf tl g < ourScoreOf tl g)),
       r.losses + (gs.filter (fun g => g.is_played)).countP
          (fun g => decide (ourScoreOf tl g < theirScoreOf tl g)),
       r.ties + (gs.filter (fun g => g.is_played)).countP
          (fun g => decide (ourScoreOf tl g = theirScoreOf tl g)),
       r.goals_for + ((gs.filter (fun g => g.is_played)).map (ourScoreOf tl)).sum,
       r.goals_against + ((gs.filter (fun g => g.is_played)).map (theirScoreOf tl)).sum,
       r.games ++ gs.filter (fun g => g.is_played)⟩ := by
  induction gs generalizing r with
  | nil => simp
  | cons g gs ih =>
    by_cases hp : g.is_played
    · rcases lt_trichotomy (theirScoreOf tl g) (ourScoreOf tl g) with hw | he | hl
      · rw [List.foldl_cons, recordStep_win tl r g hp hw, ih]
        simp only [List.filter_cons, hp, if_true, List.countP_cons, List.map_cons,
          List.sum_cons]
        rw [TeamRecord.mk.injEq]
        have h1 : decide (theirScoreOf tl g < ourScoreOf tl g) = true := by
          simp [hw]
        have h2 : decide (ourScoreOf tl g < theirScoreOf tl g) = false := by
          simp [not_lt_of_gt hw]
        have h3 : decide (ourScoreOf tl g = theirScoreOf tl g) = false := by
          simp [ne_of_gt hw]
        refine ⟨by rw [h1]; simp <;> omega, by rw [h2]; simp <;> omega, by rw [h3]; simp <;> omega, by ring, by ring, by simp⟩
      · rw [List.foldl_cons, recordStep_tie tl r g hp he.symm, ih]
        simp only [List.filter_cons, hp, if_true, List.countP_cons, List.map_cons,
          List.sum_cons]
        rw [TeamRecord.mk.injEq]
        have h1 : decide (theirScoreOf tl g < ourScoreOf tl g) = false := by
          simp [he]
        have h2 : decide (ourScoreOf tl g < theirScoreOf tl g) = false := by
          simp [he]
        have h3 : decide (ourScoreOf tl g = theirScoreOf tl g) = true := by
          simp [he.symm]
        refine ⟨by rw [h1]; simp <;> omega, by rw [h2]; simp <;> omega, by rw [h3]; simp <;> omega, by ring, by ring, by simp⟩
      · rw [List.foldl_cons, recordStep_loss tl r g hp hl, ih]
        simp only [List.filter_cons, hp, if_true, List.countP_cons, List.map_cons,
          List.sum_cons]
        rw [TeamRecord.mk.injEq]
        have h1 : decide (theirScoreOf tl g < ourScoreOf tl g) = false := by
          simp [not_lt_of_gt hl]
        have h2 : decide (ourScoreOf tl g < theirScoreOf tl g) = true := by
          simp [hl]
        have h3 : decide (ourScoreOf tl g = theirScoreOf tl g) = false := by
          simp [ne_of_lt hl]
        refine ⟨by rw [h1]; simp <;> omega, by rw [h2]; simp <;> omega, by rw [h3]; simp <;> omega, by ring, by ring, by simp⟩
    · rw [List.foldl_cons, recordStep_unplayed tl r g (by simpa using hp), ih]
      simp [List.filter_cons, hp]

lemma countP_score_trichotomy (tl : List Char) (l : List Game) :
    l.countP (fun g => decide (theirScoreOf tl g < ourScoreOf tl g))
      + l.countP (fun g => decide (ourScoreOf tl g < theirScoreOf tl g))
      + l.countP (fun g => decide (ourScoreOf tl g = theirScoreOf tl g))
      = l.length := by
  induction l with
  | nil => simp
  | cons g gs ih =>
    simp only [List.countP_cons, List.length_cons]
    rcases lt_trichotomy (theirScoreOf tl g) (ourScoreOf tl g) with hw | he | hl
    · have h1 : decide (theirScoreOf tl g < ourScoreOf tl g) = true := by simp [hw]
      have h2 : decide (ourScoreOf tl g < theirScoreOf tl g) = false := by
        simp [not_lt_of_gt hw]
      have h3 : decide (ourScoreOf tl g = theirScoreOf tl g) = false := by
        simp [ne_of_gt hw]
      rw [h1, h2, h3]
      simp
      omega
    · have h1 : decide (theirScoreOf tl g < ourScoreOf tl g) = false := by simp [he]
      have h2 : decide (ourScoreOf tl g < theirScoreOf tl g) = false := by simp [he]
      have h3 : decide (ourScoreOf tl g = theirScoreOf tl g) = true := by simp [he.symm]
      rw [h1, h2, h3]
      simp
      omega
    · have h1 : decide (theirScoreOf tl g < ourScoreOf tl g) = false := by
        simp [not_lt_of_gt hl]
      have h2 : decide (ourScoreOf tl g < theirScoreOf tl g) = true := by simp [hl]
      have h3 : decide (ourScoreOf tl g = theirScoreOf tl g) = false := by
        simp [ne_of_lt hl]
      rw [h1, h2, h3]
      simp
      omega

/-! ## Claim C5 -/

/-- C5: for every list of game rows, the record built by `_build_team_record`
satisfies: only played games contribute (a game with no recorded score is
unplayed per the store interface and contributes nothing), goals are
attributed by the case-insensitive substring match of the team name against
the stored `home_team` field, exactly one of wins/losses/ties is
incremented per contributing game (win iff the named team's goals strictly
exceed the other side's, tie iff equal), and wins + losses + ties equals
the number of contributing games, which is the length of `record.games`. -/
theorem buildTeamRecord_spec (teamName : String) (gs : List Game) :
    (buildTeamRecord teamName gs).games = gs.filter (fun g => g.is_played)
    ∧ (buildTeamRecord teamName gs).wins
        = (gs.filter (fun g => g.is_played)).countP
            (fun g => decide (theirScoreOf (lowerData teamName) g < ourScoreOf (lowerData teamName) g))
    ∧ (buildTeamRecord teamName gs).losses
        = (gs.filter (fun g => g.is_played)).countP
            (fun g => decide (ourScoreOf (lowerData teamName) g < theirScoreOf (lowerData teamName) g))
    ∧ (buildTeamRecord teamName gs).ties
        = (gs.filter (fun g => g.is_played)).countP
            (fun g => decide (ourScoreOf (lowerData teamName) g = theirScoreOf (lowerData teamName) g))
    ∧ (buildTeamRecord teamName gs).goals_for
        = ((gs.filter (fun g => g.is_played)).map (ourScoreOf (lowerData teamName))).sum
    ∧ (buildTeamRecord teamName gs).goals_against
        = ((gs.filter (fun g => g.is_played)).map (theirScoreOf (lowerData teamName))).sum
    ∧ (buildTeamRecord teamName gs).wins + (buildTeamRecord teamName gs).losses
        + (buildTeamRecord teamName gs).ties
        = (gs.filter (fun g => g.is_played)).length
    ∧ (buildTeamRecord teamName gs).games.length
        = (gs.filter (fun g => g.is_played)).length := by
  rw [buildTeamRecord, foldl_recordStep_eq]
  refine ⟨by simp [TeamRecord.empty], by simp [TeamRecord.empty], by simp [TeamRecord.empty],
    by simp [TeamRecord.empty], by simp [TeamRecord.empty], by simp [TeamRecord.empty], ?_, ?_⟩
  · simp only [TeamRecord.empty]
    simp
    exact countP_score_trichotomy _ _
  · simp [TeamRecord.empty]

/-! ## Claim C1 -/

/-- C1: `advantage_score` is total with value in [-1, 1]; it is exactly 0
when either record has no games, and otherwise equals
`clamp((win_component + gd_component) * recency_weight, -1, 1)` with
`win_component = (our_win_rate - their_win_rate) * 0.5`,
`win_rate = (wins + 0.5 * ties) / games_played`, and
`gd_component = clamp((our_gd_per_game - their_gd_per_game) / 5, -0.5, 0.5)`. -/
theorem advantage_score_spec (c : SharedOpponentComparison) :
    (-1 ≤ c.advantage_score ∧ c.advantage_score ≤ 1)
    ∧ (c.our_record.games_played = 0 ∨ c.their_record.games_played = 0 →
        c.advantage_score = 0)
    ∧ (0 < c.our_record.games_played → 0 < c.their_record.games_played →
        c.advantage_score
          = max (-1) (min 1
              (((((c.our_record.wins : ℚ) + (1/2) * (c.our_record.ties : ℚ)) / (c.our_record.games_played : ℚ)
                  - ((c.their_record.wins : ℚ) + (1/2) * (c.their_record.ties : ℚ)) / (c.their_record.games_played : ℚ)) * (1/2)
                + max (-(1/2)) (min (1/2)
                    (((c.our_record.goal_diff : ℚ) / (c.our_record.games_played : ℚ)
                      - (c.their_record.goal_diff : ℚ) / (c.their_record.games_played : ℚ)) / 5)))
                * c.recency_weight))) := by
  refine ⟨advantage_score_mem c, fun h => ?_, fun h1 h2 => ?_⟩
  · rw [SharedOpponentComparison.advantage_score, if_pos h]
  · rw [SharedOpponentComparison.advantage_score, if_neg (by omega)]

/-- Witness for C1: a concrete comparison with both sides played, whose
advantage score evaluates to 3/4 through the theorem's formula. -/
theorem advantage_score_spec_witness :
    (-1 ≤ wComp.advantage_score ∧ wComp.advantage_score ≤ 1)
    ∧ wComp.advantage_score = 3/4 := by
  have h := advantage_score_spec wComp
  refine ⟨h.1, ?_⟩
  have h3 := h.2.2 (by decide) (by decide)
  rw [h3]
  norm_num [wComp, wG1, wG2, TeamRecord.games_played, TeamRecord.goal_diff, min_def, max_def]

/-! ## Rounding range helpers -/

lemma round0_mem (q : ℚ) (h0 : 0 ≤ q) (h100 : q ≤ 100) :
    0 ≤ round0 q ∧ round0 q ≤ 100 := by
  constructor
  · have h := le_pyRound 0 q (by exact_mod_cast h0)
    rw [round0]
    exact_mod_cast h
  · have h := pyRound_le 100 q (by exact_mod_cast h100)
    rw [round0]
    exact_mod_cast h

lemma round2_mem (q : ℚ) (h1 : -1 ≤ q) (h2 : q ≤ 1) :
    -1 ≤ round2 q ∧ round2 q ≤ 1 := by
  have hlo : (-100 : ℤ) ≤ pyRound (q * 100) := by
    apply le_pyRound
    push_cast
    linarith
  have hhi : pyRound (q * 100) ≤ (100 : ℤ) := by
    apply pyRound_le
    push_cast
    linarith
  constructor
  · rw [round2, le_div_iff₀ (by norm_num : (0:ℚ) < 100)]
    calc (-1 : ℚ) * 100 = ((-100 : ℤ) : ℚ) := by norm_num
    _ ≤ (pyRound (q * 100) : ℚ) := by exact_mod_cast hlo
  · rw [round2, div_le_one (by norm_num : (0:ℚ) < 100)]
    calc (pyRound (q * 100) : ℚ) ≤ ((100 : ℤ) : ℚ) := by exact_mod_cast hhi
    _ = 100 := by norm_num

lemma combinedWeight_eq (c : SharedOpponentComparison) :
    combinedWeight c
      = c.recency_weight
        * ((min (c.our_record.games_played + c.their_record.games_played) 6 : ℕ) : ℚ) / 6 := by
  rw [combinedWeight, gamesWeight]
  ring

lemma predictOutcome_ok (env : Env) (hl ms : ℕ) (ourTeam opponent : String)
    (store : Store) (comps : List SharedOpponentComparison)
    (hc : qualifyingComparisons env hl ourTeam opponent store = .ok comps) :
    predictOutcome env hl ms ourTeam store opponent
      = .ok (predictFromComparisons ms ourTeam opponent
          (buildHeadToHead ourTeam (store.headToHead ourTeam opponent)) comps) := by
  rw [predictOutcome, hc]
  rfl

lemma predictOutcome_error (env : Env) (hl ms : ℕ) (ourTeam opponent : String)
    (store : Store)
    (hc : qualifyingComparisons env hl ourTeam opponent store = .error ()) :
    predictOutcome env hl ms ourTeam store opponent = .error () := by
  rw [predictOutcome, hc]
  rfl

/-! ## Claim C7 -/

/-- C7: with n >= 1 qualifying comparisons the step-6 confidence equals
base_confidence * consistency_factor * 100, where base_confidence =
min(n/4, 1) and consistency_factor is 0.7 for n = 1 and otherwise
max(0.5, 1 - variance) with the variance taken around the final weighted
advantage score (not the sample mean); consequently it lies in [0, 100],
and so does the confidence field of the returned prediction. -/
theorem confidence_spec (comps : List SharedOpponentComparison) (h : comps ≠ [])
    (ms : ℕ) (ourTeam opponent : String) (h2h : HeadToHeadRecord) :
    rollUpConfidence comps (rollUpAdvantage comps)
      = min ((comps.length : ℚ) / 4) 1
        * (if comps.length = 1 then 7/10
           else max (1/2)
             (1 - (comps.map (fun c => (c.advantage_score - rollUpAdvantage comps) ^ 2)).sum
                / (comps.length : ℚ)))
        * 100
    ∧ 0 ≤ rollUpConfidence comps (rollUpAdvantage comps)
    ∧ rollUpConfidence comps (rollUpAdvantage comps) ≤ 100
    ∧ 0 ≤ (predictFromComparisons ms ourTeam opponent h2h comps).confidence
    ∧ (predictFromComparisons ms ourTeam opponent h2h comps).confidence ≤ 100
    ∧ (ms ≤ comps.length →
        (predictFromComparisons ms ourTeam opponent h2h comps).confidence
          = round0 (rollUpConfidence comps (rollUpAdvantage comps))) := by
  have hmem := rollUpConfidence_mem comps (rollUpAdvantage comps)
  refine ⟨?_, hmem.1, hmem.2, ?_, ?_, ?_⟩
  · rw [rollUpConfidence]
    by_cases h2 : 2 ≤ comps.length
    · rw [if_pos h2, if_neg (by omega)]
      simp [List.map_map, Function.comp_def]
    · have hn : comps.length = 1 := by
        have := List.length_pos.mpr h
        omega
      rw [if_neg h2, if_pos hn]
  · obtain ⟨c, cs, rfl⟩ := List.exists_cons_of_ne_nil h
    have harg : 0 ≤ (if (c :: cs).length < ms
        then min (rollUpConfidence (c :: cs) (rollUpAdvantage (c :: cs))) 30
        else rollUpConfidence (c :: cs) (rollUpAdvantage (c :: cs)))
        ∧ (if (c :: cs).length < ms
        then min (rollUpConfidence (c :: cs) (rollUpAdvantage (c :: cs))) 30
        else rollUpConfidence (c :: cs) (rollUpAdvantage (c :: cs))) ≤ 100 := by
      split_ifs
      · exact ⟨le_min hmem.1 (by norm_num), le_trans (min_le_left _ _) hmem.2⟩
      · exact ⟨hmem.1, hmem.2⟩
    exact (round0_mem _ harg.1 harg.2).1
  · obtain ⟨c, cs, rfl⟩ := List.exists_cons_of_ne_nil h
    have harg : 0 ≤ (if (c :: cs).length < ms
        then min (rollUpConfidence (c :: cs) (rollUpAdvantage (c :: cs))) 30
        else rollUpConfidence (c :: cs) (rollUpAdvantage (c :: cs)))
        ∧ (if (c :: cs).length < ms
        then min (rollUpConfidence (c :: cs) (rollUpAdvantage (c :: cs))) 30
        else rollUpConfidence (c :: cs) (rollUpAdvantage (c :: cs))) ≤ 100 := by
      split_ifs
      · exact ⟨le_min hmem.1 (by norm_num), le_trans (min_le_left _ _) hmem.2⟩
      · exact ⟨hmem.1, hmem.2⟩
    exact (round0_mem _ harg.1 harg.2).2
  · intro hms
    obtain ⟨c, cs, rfl⟩ := List.exists_cons_of_ne_nil h
    show round0 (if (c :: cs).length < ms then _ else _) = _
    rw [if_neg (not_lt.mpr hms)]

/-- Witness for C7: a single concrete comparison gives confidence
min(1/4,1) * 0.7 * 100 = 17.5, inside [0, 100]. -/
theorem confidence_spec_witness :
    rollUpConfidence [wComp] (rollUpAdvantage [wComp]) = 35/2
    ∧ 0 ≤ rollUpConfidence [wComp] (rollUpAdvantage [wComp])
    ∧ rollUpConfidence [wComp] (rollUpAdvantage [wComp]) ≤ 100 := by
  have h := confidence_spec [wComp] (by simp) 2 "kw" "ec" ⟨[], 0, 0, 0, 0, 0⟩
  refine ⟨?_, h.2.1, h.2.2.1⟩
  rw [h.1]
  norm_num [min_def]

/-! ## Claim C2 -/

/-- C2: for a non-empty list of qualifying comparisons (both sides with
games and nonnegative recency weights, as the pipeline produces), the
advantage score of the prediction equals the rounded weighted mean
sum(score_i * w_i) / sum(w_i) with w_i = recency_weight_i * min(our_games_i
+ their_games_i, 6) / 6 (0 when the weight sum is 0), and the returned
rounded score lies in [-1, 1]. -/
theorem predict_advantage_spec (ms : ℕ) (ourTeam opponent : String)
    (h2h : HeadToHeadRecord) (comps : List SharedOpponentComparison)
    (hne : comps ≠ [])
    (hq : ∀ c ∈ comps, 0 < c.our_record.games_played ∧ 0 < c.their_record.games_played)
    (hw : ∀ c ∈ comps, 0 ≤ c.recency_weight) :
    (predictFromComparisons ms ourTeam opponent h2h comps).advantage_score
      = round2 (if 0 < (comps.map (fun c => c.recency_weight
              * ((min (c.our_record.games_played + c.their_record.games_played) 6 : ℕ) : ℚ) / 6)).sum
          then (comps.map (fun c => c.advantage_score * (c.recency_weight
              * ((min (c.our_record.games_played + c.their_record.games_played) 6 : ℕ) : ℚ) / 6))).sum
            / (comps.map (fun c => c.recency_weight
              * ((min (c.our_record.games_played + c.their_record.games_played) 6 : ℕ) : ℚ) / 6)).sum
          else 0)
    ∧ -1 ≤ (predictFromComparisons ms ourTeam opponent h2h comps).advantage_score
    ∧ (predictFromComparisons ms ourTeam opponent h2h comps).advantage_score ≤ 1
    ∧ (∀ (env : Env) (hl : ℕ) (store : Store),
        qualifyingComparisons env hl ourTeam opponent store = .ok comps →
        predictOutcome env hl ms ourTeam store opponent
          = .ok (predictFromComparisons ms ourTeam opponent
              (buildHeadToHead ourTeam (store.headToHead ourTeam opponent)) comps)) := by
  have hscore : (predictFromComparisons ms ourTeam opponent h2h comps).advantage_score
      = round2 (rollUpAdvantage comps) := by
    obtain ⟨c, cs, rfl⟩ := List.exists_cons_of_ne_nil hne
    rfl
  have hmap1 : comps.map combinedWeight
      = comps.map (fun c => c.recency_weight
          * ((min (c.our_record.games_played + c.their_record.games_played) 6 : ℕ) : ℚ) / 6) :=
    List.map_congr_left (fun c _ => combinedWeight_eq c)
  have hmap2 : (comps.map fun c => c.advantage_score * combinedWeight c)
      = comps.map (fun c => c.advantage_score * (c.recency_weight
          * ((min (c.our_record.games_played + c.their_record.games_played) 6 : ℕ) : ℚ) / 6)) :=
    List.map_congr_left (fun c _ => by rw [combinedWeight_eq])
  have hmem := rollUpAdvantage_mem comps hw
  have hr2 := round2_mem (rollUpAdvantage comps) hmem.1 hmem.2
  refine ⟨?_, ?_, ?_, ?_⟩
  · rw [hscore, rollUpAdvantage_eq, hmap1, hmap2]
  · rw [hscore]
    exact hr2.1
  · rw [hscore]
    exact hr2.2
  · intro env hl store hc
    exact predictOutcome_ok env hl ms ourTeam opponent store comps hc

/-- Witness for C2 at the concrete singleton comparison list. -/
theorem predict_advantage_spec_witness :
    -1 ≤ (predictFromComparisons 2 "kw" "ec" ⟨[], 0, 0, 0, 0, 0⟩ [wComp]).advantage_score
    ∧ (predictFromComparisons 2 "kw" "ec" ⟨[], 0, 0, 0, 0, 0⟩ [wComp]).advantage_score ≤ 1 := by
  have h := predict_advantage_spec 2 "kw" "ec" ⟨[], 0, 0, 0, 0, 0⟩ [wComp]
    (by simp)
    (by
      intro c hc
      rw [List.mem_singleton] at hc
      subst hc
      exact ⟨by decide, by decide⟩)
    (by
      intro c hc
      rw [List.mem_singleton] at hc
      subst hc
      norm_num [wComp])
  exact ⟨h.2.1, h.2.2.1⟩

/-! ## Claim C3 -/

/-- C3: when the number of qualifying comparisons is at least one but
below min_shared_opponents, predict_outcome returns outcome UNCERTAIN and
confidence at most 30, whatever the roll-up's sign or magnitude. -/
theorem min_evidence_guard (env : Env) (hl ms : ℕ) (ourTeam opponent : String)
    (store : Store) (comps : List SharedOpponentComparison)
    (hc : qualifyingComparisons env hl ourTeam opponent store = .ok comps)
    (h1 : 0 < comps.length) (h2 : comps.length < ms) :
    predictOutcome env hl ms ourTeam store opponent
      = .ok (predictFromComparisons ms ourTeam opponent
          (buildHeadToHead ourTeam (store.headToHead ourTeam opponent)) comps)
    ∧ (predictFromComparisons ms ourTeam opponent
        (buildHeadToHead ourTeam (store.headToHead ourTeam opponent)) comps).outcome
      = "UNCERTAIN"
    ∧ (predictFromComparisons ms ourTeam opponent
        (buildHeadToHead ourTeam (store.headToHead ourTeam opponent)) comps).confidence
      ≤ 30 := by
  refine ⟨?_, ?_, ?_⟩
  · rw [predictOutcome, hc]
    rfl
  · obtain ⟨c, cs, rfl⟩ := List.exists_cons_of_ne_nil (List.length_pos.mp h1)
    show (if (c :: cs).length < ms then _ else _) = "UNCERTAIN"
    rw [if_pos h2]
    split_ifs <;> simp_all
  · obtain ⟨c, cs, rfl⟩ := List.exists_cons_of_ne_nil (List.length_pos.mp h1)
    show ((pyRound (if (c :: cs).length < ms then _ else _) : ℚ)) ≤ 30
    rw [if_pos h2]
    have h30 : pyRound (min (rollUpConfidence (c :: cs) (rollUpAdvantage (c :: cs))) 30)
        ≤ (30 : ℤ) := by
      apply pyRound_le
      exact_mod_cast min_le_right _ _
    exact_mod_cast h30

/-- Witness for C3: one qualifying comparison with min_shared_opponents = 2. -/
theorem min_evidence_guard_witness :
    (predictFromComparisons 2 "kw" "ec"
        (buildHeadToHead "kw" (wStore1.headToHead "kw" "ec")) [wComp]).outcome
      = "UNCERTAIN"
    ∧ (predictFromComparisons 2 "kw" "ec"
        (buildHeadToHead "kw" (wStore1.headToHead "kw" "ec")) [wComp]).confidence
      ≤ 30 := by
  have h := min_evidence_guard wEnv 365 2 "kw" "ec" wStore1 [wComp] (by rfl)
    (by decide) (by decide)
  exact ⟨h.2.1, h.2.2⟩

/-! ## Claim C4 -/

/-- C4: with zero qualifying comparisons, predict_outcome does not raise:
it returns advantage_score 0, confidence 0, outcome UNCERTAIN, empty
comparisons, and the head-to-head record exactly when it has games. -/
theorem no_evidence_result (env : Env) (hl ms : ℕ) (ourTeam opponent : String)
    (store : Store)
    (hc : qualifyingComparisons env hl ourTeam opponent store = .ok []) :
    predictOutcome env hl ms ourTeam store opponent
      = .ok ⟨ourTeam, opponent, [], 0, 0, "UNCERTAIN",
          if 0 < (buildHeadToHead ourTeam (store.headToHead ourTeam opponent)).games_played
          then some (buildHeadToHead ourTeam (store.headToHead ourTeam opponent))
          else none⟩ := by
  rw [predictOutcome, hc]
  rfl

/-- Witness for C4: a store with no shared opponents but one played direct
game; the head-to-head record is attached. -/
theorem no_evidence_result_witness :
    predictOutcome wEnv 365 2 "kw" wStore0 "ec"
      = .ok ⟨"kw", "ec", [], 0, 0, "UNCERTAIN",
          some (buildHeadToHead "kw" (wStore0.headToHead "kw" "ec"))⟩ := by
  rw [no_evidence_result wEnv 365 2 "kw" "ec" wStore0 (by rfl)]
  rfl

lemma mem_findSharedOpponents (ourTeam opponent : String) (store : Store) (x : String) :
    x ∈ findSharedOpponents ourTeam opponent store
      ↔ (x ∈ store.opponentsFor ourTeam ∧ x ∈ store.opponentsFor opponent
          ∧ substrLower ourTeam x = false ∧ substrLower opponent x = false) := by
  rw [findSharedOpponents, mem_sortStrings, List.mem_filter, List.mem_dedup]
  constructor
  · rintro ⟨hin, hcond⟩
    have hin2 : x ∈ store.opponentsFor ourTeam ∩ store.opponentsFor opponent := hin
    rw [List.mem_inter_iff] at hin2
    rw [Bool.and_eq_true, Bool.not_eq_true', Bool.not_eq_true'] at hcond
    exact ⟨hin2.1, hin2.2, hcond.1, hcond.2⟩
  · rintro ⟨h1, h2, h3, h4⟩
    refine ⟨?_, ?_⟩
    · have hin2 : x ∈ store.opponentsFor ourTeam ∩ store.opponentsFor opponent :=
        List.mem_inter_iff.mpr ⟨h1, h2⟩
      exact hin2
    · rw [Bool.and_eq_true, Bool.not_eq_true', Bool.not_eq_true']
      exact ⟨h3, h4⟩

lemma sorted_findSharedOpponents (ourTeam opponent : String) (store : Store) :
    List.Sorted (· ≤ ·) (findSharedOpponents ourTeam opponent store) := by
  rw [findSharedOpponents]
  exact sorted_sortStrings _

lemma nodup_findSharedOpponents (ourTeam opponent : String) (store : Store) :
    (findSharedOpponents ourTeam opponent store).Nodup := by
  rw [findSharedOpponents]
  exact nodup_sortStrings (List.Nodup.filter _ (List.nodup_dedup _))

/-! ## Claim C8 -/

/-- C8: find_shared_opponents returns a list that is sorted ascending,
contains only names lying in both opponent sets, excludes every name that
case-insensitively contains our team's or the candidate's name, and in
particular never contains our team or the candidate itself. -/
theorem findSharedOpponents_spec (ourTeam opponent : String) (store : Store) :
    List.Sorted (· ≤ ·) (findSharedOpponents ourTeam opponent store)
    ∧ (∀ x ∈ findSharedOpponents ourTeam opponent store,
        x ∈ store.opponentsFor ourTeam ∧ x ∈ store.opponentsFor opponent
          ∧ substrLower ourTeam x = false ∧ substrLower opponent x = false)
    ∧ ourTeam ∉ findSharedOpponents ourTeam opponent store
    ∧ opponent ∉ findSharedOpponents ourTeam opponent store := by
  have hchar : ∀ x ∈ findSharedOpponents ourTeam opponent store,
      x ∈ store.opponentsFor ourTeam ∧ x ∈ store.opponentsFor opponent
        ∧ substrLower ourTeam x = false ∧ substrLower opponent x = false :=
    fun x hx => (mem_findSharedOpponents ourTeam opponent store x).mp hx
  refine ⟨sorted_findSharedOpponents ourTeam opponent store, hchar,
    fun hmem => ?_, fun hmem => ?_⟩
  · have h := (hchar ourTeam hmem).2.2.1
    rw [substrLower_self] at h
    exact absurd h (by decide)
  · have h := (hchar opponent hmem).2.2.2
    rw [substrLower_self] at h
    exact absurd h (by decide)

/-- Witness for C8 at a concrete store: the shared opponent list is
["ral"], which lies in both opponent sets, and neither team is in it. -/
theorem findSharedOpponents_spec_witness :
    List.Sorted (· ≤ ·) (findSharedOpponents "kw" "ec" wStore1)
    ∧ "ral" ∈ wStore1.opponentsFor "kw" ∧ "ral" ∈ wStore1.opponentsFor "ec"
    ∧ "kw" ∉ findSharedOpponents "kw" "ec" wStore1
    ∧ "ec" ∉ findSharedOpponents "kw" "ec" wStore1 := by
  have h := findSharedOpponents_spec "kw" "ec" wStore1
  have hr := h.2.1 "ral" (by decide)
  exact ⟨h.1, hr.1, hr.2.1, h.2.2.1, h.2.2.2⟩

/-! ## Claim C6 -/

/-- C6 counterexample: a future-dated contributing game (days_since = -365
with half-life 365) gives recency weight 0.5 ^ (-1) = 2 > 1, so the weight
is not always in (0, 1]. -/
theorem recency_weight_gt_one :
    1 < comparisonRecencyWeight 365 (fun _ => -365) wRec1 TeamRecord.empty := by
  have hne : wRec1.games ++ TeamRecord.empty.games = [wG1] := rfl
  rw [comparisonRecencyWeight]
  simp only [hne]
  rw [if_neg (by simp)]
  rw [calculateRecencyWeight]
  have hexp : (((-365 : ℤ) : ℝ) / ((365 : ℕ) : ℝ)) = ((-1 : ℤ) : ℝ) := by
    push_cast
    norm_num
  rw [hexp, Real.rpow_intCast]
  norm_num

/-- C6 (amended): the recency weight attached to a comparison is
0.5 ^ (days_since(most_recent) / half_life) when contributing games exist
(with most_recent the latest date across both records' games) and 0.5 when
none do; it is always positive, and it is at most 1 provided the most
recent contributing game is not in the future — a future-dated game makes
it exceed 1. -/
theorem recency_weight_spec (halfLifeDays : ℕ) (hhl : 0 < halfLifeDays)
    (daysSince : String → ℤ) (ourRecord theirRecord : TeamRecord) :
    (ourRecord.games ++ theirRecord.games = [] →
      comparisonRecencyWeight halfLifeDays daysSince ourRecord theirRecord = 1/2)
    ∧ (ourRecord.games ++ theirRecord.games ≠ [] →
      comparisonRecencyWeight halfLifeDays daysSince ourRecord theirRecord
        = calculateRecencyWeight halfLifeDays
            (daysSince (maxDate ((ourRecord.games ++ theirRecord.games).map Game.date))))
    ∧ (∀ d ∈ (ourRecord.games ++ theirRecord.games).map Game.date,
        d ≤ maxDate ((ourRecord.games ++ theirRecord.games).map Game.date))
    ∧ 0 < comparisonRecencyWeight halfLifeDays daysSince ourRecord theirRecord
    ∧ (ourRecord.games ++ theirRecord.games ≠ [] →
        0 ≤ daysSince (maxDate ((ourRecord.games ++ theirRecord.games).map Game.date)) →
      comparisonRecencyWeight halfLifeDays daysSince ourRecord theirRecord ≤ 1) := by
  refine ⟨fun h => ?_, fun h => ?_, le_maxDate _, ?_, fun h hd => ?_⟩
  · rw [comparisonRecencyWeight, if_pos h]
  · rw [comparisonRecencyWeight, if_neg h]
  · rw [comparisonRecencyWeight]
    split_ifs with h
    · norm_num
    · rw [calculateRecencyWeight]
      exact Real.rpow_pos_of_pos (by norm_num) _
  · rw [comparisonRecencyWeight, if_neg h, calculateRecencyWeight]
    apply Real.rpow_le_one (by norm_num) (by norm_num)
    apply div_nonneg
    · exact_mod_cast hd
    · positivity

/-- Witness for C6: half-life 365 and a most recent game dated today
(days_since = 0) give a weight that is positive and at most 1. -/
theorem recency_weight_spec_witness :
    0 < comparisonRecencyWeight 365 (fun _ => 0) wRec1 TeamRecord.empty
    ∧ comparisonRecencyWeight 365 (fun _ => 0) wRec1 TeamRecord.empty ≤ 1 := by
  have h := recency_weight_spec 365 (by norm_num) (fun _ => 0) wRec1 TeamRecord.empty
  exact ⟨h.2.2.2.1, h.2.2.2.2 (by simp [wRec1, TeamRecord.empty]) (le_refl 0)⟩

/-! ## Claim C9 -/

/-- C9 counterexample: a store whose only contributing game for the shared
opponent has the unparsable date "garbage" makes the comparison computation
— and the whole prediction — abort with the parse error instead of
skipping the row and completing. -/
theorem malformed_date_aborts :
    getComparativePerformance wEnv 365 "kw" "ec" "ral" wStoreBad = .error ()
    ∧ predictOutcome wEnv 365 2 "kw" wStoreBad "ec" = .error () :=
  ⟨rfl, rfl⟩

/-- C9 (amended): malformed rows are not skipped per-row.  With a positive
half-life, the comparison computation errors exactly when contributing
games exist and the lexicographically greatest contributing date fails to
parse; in particular a malformed date on a non-maximal row does not abort,
but its row still counts, and a malformed maximal date aborts the whole
computation. -/
theorem comparison_error_characterization (env : Env) (hl : ℕ) (hhl : 0 < hl)
    (ourTeam opponent sharedOpp : String) (store : Store) :
    getComparativePerformance env hl ourTeam opponent sharedOpp store = .error ()
      ↔ ((buildTeamRecord ourTeam (store.headToHead ourTeam sharedOpp)).games
            ++ (buildTeamRecord opponent (store.headToHead opponent sharedOpp)).games ≠ []
        ∧ parseYMD (maxDate
            (((buildTeamRecord ourTeam (store.headToHead ourTeam sharedOpp)).games
              ++ (buildTeamRecord opponent (store.headToHead opponent sharedOpp)).games).map
              Game.date))
          = none) := by
  rcases hg : (buildTeamRecord ourTeam (store.headToHead ourTeam sharedOpp)).games
      ++ (buildTeamRecord opponent (store.headToHead opponent sharedOpp)).games with _ | ⟨g, gs⟩
  · constructor
    · intro habs
      simp only [getComparativePerformance, hg] at habs
      exact absurd habs (by simp)
    · rintro ⟨hne, _⟩
      exact absurd rfl hne
  · simp only [getComparativePerformance, hg, calcRecencyWeightE]
    rcases hp : parseYMD (maxDate ((g :: gs).map Game.date)) with _ | ymd
    · simp [hp]
    · simp [hp, Nat.pos_iff_ne_zero.mp hhl]

/-- Witness for C9's amended characterization: with parseable dates the
comparison computation completes. -/
theorem comparison_error_characterization_witness :
    ¬ (getComparativePerformance wEnv 365 "kw" "ec" "ral" wStore1 = .error ()) := by
  rw [comparison_error_characterization wEnv 365 (by norm_num) "kw" "ec" "ral" wStore1]
  intro hcontra
  exact absurd hcontra.2 (by decide)

/-! ## Claim C10 -/

lemma mapM_except_congr {α β : Type} (l : List α) (f g : α → Except Unit β)
    (h : ∀ x ∈ l, f x = g x) : l.mapM f = l.mapM g := by
  induction l with
  | nil => rfl
  | cons a as ih =>
    rw [List.mapM_cons, List.mapM_cons, h a (List.mem_cons_self a as),
      ih (fun x hx => h x (List.mem_cons_of_mem a hx))]

lemma predictFromComparisons_frame (ms : ℕ) (a b : String)
    (h2h h2hAlt : HeadToHeadRecord) (comps : List SharedOpponentComparison) :
    (predictFromComparisons ms a b h2h comps).advantage_score
      = (predictFromComparisons ms a b h2hAlt comps).advantage_score
    ∧ (predictFromComparisons ms a b h2h comps).confidence
      = (predictFromComparisons ms a b h2hAlt comps).confidence
    ∧ (predictFromComparisons ms a b h2h comps).outcome
      = (predictFromComparisons ms a b h2hAlt comps).outcome
    ∧ (predictFromComparisons ms a b h2h comps).comparisons
      = (predictFromComparisons ms a b h2hAlt comps).comparisons := by
  cases comps <;> exact ⟨rfl, rfl, rfl, rfl⟩

lemma findSharedOpponents_congr (ourTeam opponent : String) (S1 S2 : Store)
    (hA : ∀ name, substrLower ourTeam name = false → substrLower opponent name = false →
      (name ∈ S1.opponentsFor ourTeam ↔ name ∈ S2.opponentsFor ourTeam))
    (hB : ∀ name, substrLower ourTeam name = false → substrLower opponent name = false →
      (name ∈ S1.opponentsFor opponent ↔ name ∈ S2.opponentsFor opponent)) :
    findSharedOpponents ourTeam opponent S1 = findSharedOpponents ourTeam opponent S2 := by
  haveI : IsAntisymm String (· ≤ ·) := ⟨fun a b hab hba => le_antisymm hab hba⟩
  have hmemiff : ∀ x, x ∈ findSharedOpponents ourTeam opponent S1
      ↔ x ∈ findSharedOpponents ourTeam opponent S2 := by
    intro x
    rw [mem_findSharedOpponents, mem_findSharedOpponents]
    constructor
    · rintro ⟨h1, h2, h3, h4⟩
      exact ⟨(hA x h3 h4).mp h1, (hB x h3 h4).mp h2, h3, h4⟩
    · rintro ⟨h1, h2, h3, h4⟩
      exact ⟨(hA x h3 h4).mpr h1, (hB x h3 h4).mpr h2, h3, h4⟩
  have hperm : (findSharedOpponents ourTeam opponent S1).Perm
      (findSharedOpponents ourTeam opponent S2) := by
    apply List.perm_of_nodup_nodup_toFinset_eq
      (nodup_findSharedOpponents ourTeam opponent S1)
      (nodup_findSharedOpponents ourTeam opponent S2)
    ext x
    simp only [List.mem_toFinset]
    exact hmemiff x
  exact List.eq_of_perm_of_sorted hperm
    (sorted_findSharedOpponents ourTeam opponent S1)
    (sorted_findSharedOpponents ourTeam opponent S2)

lemma qualifyingComparisons_congr (env : Env) (hl : ℕ) (ourTeam opponent : String)
    (S1 S2 : Store)
    (hA : ∀ name, substrLower ourTeam name = false → substrLower opponent name = false →
      (name ∈ S1.opponentsFor ourTeam ↔ name ∈ S2.opponentsFor ourTeam))
    (hB : ∀ name, substrLower ourTeam name = false → substrLower opponent name = false →
      (name ∈ S1.opponentsFor opponent ↔ name ∈ S2.opponentsFor opponent))
    (hH : ∀ t o, ¬(t = ourTeam ∧ o = opponent) → S1.headToHead t o = S2.headToHead t o) :
    qualifyingComparisons env hl ourTeam opponent S1
      = qualifyingComparisons env hl ourTeam opponent S2 := by
  have hf := findSharedOpponents_congr ourTeam opponent S1 S2 hA hB
  have hcomp : ∀ s ∈ findSharedOpponents ourTeam opponent S2,
      getComparativePerformance env hl ourTeam opponent s S1
        = getComparativePerformance env hl ourTeam opponent s S2 := by
    intro s hs
    have hsfalse := ((mem_findSharedOpponents ourTeam opponent S2 s).mp hs).2.2.2
    have hsne : s ≠ opponent := by
      intro he
      rw [he, substrLower_self] at hsfalse
      exact absurd hsfalse (by decide)
    have h1 : S1.headToHead ourTeam s = S2.headToHead ourTeam s :=
      hH ourTeam s (fun hpair => hsne hpair.2)
    have h2 : S1.headToHead opponent s = S2.headToHead opponent s :=
      hH opponent s (fun hpair => hsne hpair.2)
    simp only [getComparativePerformance, h1, h2]
  rw [qualifyingComparisons, qualifyingComparisons, hf,
    mapM_except_congr (findSharedOpponents ourTeam opponent S2) _ _ hcomp]

/-- C10: the advantage score, confidence, outcome and comparison list of
predict_outcome depend only on the shared-opponent evidence: varying the
direct head-to-head games (which can change the opponent sets only at
names containing one of the two team names, all of which the discovery
step filters out) changes at most the head_to_head field; and with zero
qualifying comparisons the outcome is UNCERTAIN even when the direct
record has games. -/
theorem head_to_head_frame (env : Env) (hl ms : ℕ) (ourTeam opponent : String)
    (S1 S2 : Store)
    (hA : ∀ name, substrLower ourTeam name = false → substrLower opponent name = false →
      (name ∈ S1.opponentsFor ourTeam ↔ name ∈ S2.opponentsFor ourTeam))
    (hB : ∀ name, substrLower ourTeam name = false → substrLower opponent name = false →
      (name ∈ S1.opponentsFor opponent ↔ name ∈ S2.opponentsFor opponent))
    (hH : ∀ t o, ¬(t = ourTeam ∧ o = opponent) → S1.headToHead t o = S2.headToHead t o) :
    (predictOutcome env hl ms ourTeam S1 opponent).map
        (fun r => (r.advantage_score, r.confidence, r.outcome, r.comparisons))
      = (predictOutcome env hl ms ourTeam S2 opponent).map
        (fun r => (r.advantage_score, r.confidence, r.outcome, r.comparisons))
    ∧ (qualifyingComparisons env hl ourTeam opponent S1 = .ok [] →
        ∀ r, predictOutcome env hl ms ourTeam S1 opponent = .ok r →
          r.outcome = "UNCERTAIN") := by
  constructor
  · have hq := qualifyingComparisons_congr env hl ourTeam opponent S1 S2 hA hB hH
    rcases hqc : qualifyingComparisons env hl ourTeam opponent S1 with e | comps
    · cases e
      rw [predictOutcome_error env hl ms ourTeam opponent S1 hqc,
        predictOutcome_error env hl ms ourTeam opponent S2 (hq.symm.trans hqc)]
    · rw [predictOutcome_ok env hl ms ourTeam opponent S1 comps hqc,
        predictOutcome_ok env hl ms ourTeam opponent S2 comps (hq.symm.trans hqc)]
      have h4 := predictFromComparisons_frame ms ourTeam opponent
        (buildHeadToHead ourTeam (S1.headToHead ourTeam opponent))
        (buildHeadToHead ourTeam (S2.headToHead ourTeam opponent)) comps
      simp only [Except.map]
      exact congrArg Except.ok (by
        rw [Prod.mk.injEq, Prod.mk.injEq, Prod.mk.injEq]
        exact ⟨h4.1, h4.2.1, h4.2.2.1, h4.2.2.2⟩)
  · intro hc r hr
    rw [predictOutcome_ok env hl ms ourTeam opponent S1 [] hc] at hr
    injection hr with hr2
    rw [← hr2]
    rfl

/-- Witness for C10: a store with one direct game versus the empty store
produce identical advantage score, confidence, outcome and comparisons. -/
theorem head_to_head_frame_witness :
    (predictOutcome wEnv 365 2 "kw" wStore0 "ec").map
        (fun r => (r.advantage_score, r.confidence, r.outcome, r.comparisons))
      = (predictOutcome wEnv 365 2 "kw" wStoreE "ec").map
        (fun r => (r.advantage_score, r.confidence, r.outcome, r.comparisons)) := by
  have h := head_to_head_frame wEnv 365 2 "kw" "ec" wStore0 wStoreE
    (fun name h1 h2 => Iff.rfl)
    (fun name h1 h2 => Iff.rfl)
    (by
      intro t o hto
      show (if t = "kw" ∧ o = "ec" then [wGd] else []) = []
      rw [if_neg hto])
  exact h.1

end NCSoccer
